import Mathlib

/-!
Verification of the notebook-to-script converter in `src/tools/nb_to_jl.py`.

The script validates that its input path ends in `.ipynb`, derives the
output path with `os.path.splitext`, reads and parses the notebook, and
writes the source of every code cell, each followed by two newline
characters, to the output file.  The development below is a shallow
embedding of that pipeline: the filesystem is a map from paths to optional
contents, the notebook parser (the external `nbformat` library) is an
abstract parameter, and the path functions of the Python standard library
are translated from their CPython sources.
-/

namespace NbToJl

/-- A notebook cell as consumed by the script: a type tag (such as
"code", "markdown" or "raw") and its text payload. -/
structure Cell where
  cell_type : String
  source : String
deriving DecidableEq

/-- A filesystem, modelled as a map from paths to file contents; a path
mapped to `none` cannot be opened for reading. -/
def FS := String → Option String

/-- Writing a file creates or fully overwrites the content at one path and
touches no other path. -/
def FS.write (fs : FS) (path content : String) : FS :=
  fun q => if q = path then some content else fs q

/-- Embedding of Python `str.endswith`: test whether the characters of the
second string are a suffix of the characters of the first. -/
def endswith (s suf : String) : Bool :=
  List.isSuffixOf suf.data s.data

/-- Embedding of Python `str.rfind` for a single character: the highest
index at which the character occurs in the list, or `-1` when it does not
occur. -/
def rfind : List Char → Char → Int
  | [], _ => -1
  | a :: as, c =>
    let r := rfind as c
    if 0 ≤ r then r + 1 else if a = c then 0 else -1

/-- Embedding of CPython `posixpath.splitext` (separator `/`, extension
separator `.`, no alternate separator): split off the extension at the
last dot, provided that dot lies in the final path component and at least
one character of that component before it is not itself a dot (leading
dots of the final component never start an extension). -/
def splitext (p : String) : String × String :=
  let cs := p.data
  let sepIndex := rfind cs '/'
  let dotIndex := rfind cs '.'
  if sepIndex < dotIndex then
    let fi := (sepIndex + 1).toNat
    let di := dotIndex.toNat
    if ((cs.drop fi).take (di - fi)).any (fun a => a ≠ '.') then
      (String.mk (cs.take di), String.mk (cs.drop di))
    else (p, "")
  else (p, "")

/-- The failure modes of the script: the `ValueError` raised for a wrong
input extension, an IO error when the input cannot be opened, and a parse
error when its content is not a well-formed notebook. -/
inductive Err where
  | valueError (msg : String)
  | ioError
  | parseError
deriving DecidableEq

/-- The text produced by the write loop of `convert_notebook_to_julia`:
successive writes append, for each cell whose type is "code", its source
followed by two newline characters. -/
def writeCells (cells : List Cell) : String :=
  cells.foldl (fun acc c => if c.cell_type = "code" then acc ++ (c.source ++ "\n\n") else acc) ""

/-- Embedding of `convert_notebook_to_julia`: open and read the notebook
file, parse it (`nbformat.read`, abstracted as the `parse` parameter),
and only then open the output path for writing and emit the code cells.
The returned filesystem reflects every write performed. -/
def convert_notebook_to_julia (parse : String → Option (List Cell)) (fs : FS)
    (notebook_path output_path : String) : FS × Except Err Unit :=
  match fs notebook_path with
  | none => (fs, Except.error Err.ioError)
  | some raw =>
    match parse raw with
    | none => (fs, Except.error Err.parseError)
    | some cells => (fs.write output_path (writeCells cells), Except.ok ())

/-- The output path derived by `main`: `os.path.splitext(path)[0] + ".jl"`. -/
def derived_output_path (p : String) : String :=
  (splitext p).1 ++ ".jl"

/-- Embedding of `main` after argument parsing: validate the `.ipynb`
extension (raising `ValueError` otherwise), derive the output path, run
the conversion, and on success return the printed confirmation line.  An
`Except.ok` outcome corresponds to exit code 0, an `Except.error` to a
propagated exception and a non-zero exit. -/
def main_run (parse : String → Option (List Cell)) (fs : FS)
    (notebook_path : String) : FS × Except Err String :=
  if endswith notebook_path ".ipynb" then
    let output_path := derived_output_path notebook_path
    match convert_notebook_to_julia parse fs notebook_path output_path with
    | (fs', Except.ok _) =>
        (fs', Except.ok ("Converted " ++ notebook_path ++ " to " ++ output_path))
    | (fs', Except.error e) => (fs', Except.error e)
  else (fs, Except.error (Err.valueError "Input file must have a .ipynb extension"))

/-- The specification's description of the output content: the
concatenation, in original cell order, of the source payloads of exactly
the cells whose type tag equals "code", each payload immediately followed
by the two characters of a double newline. -/
def spec_output (cells : List Cell) : String :=
  String.join ((cells.filter (fun c => c.cell_type == "code")).map (fun c => c.source ++ "\n\n"))

/-! Concrete fixtures used by the witness theorems: a small notebook with
one markdown cell and two code cells, a parser recognising its raw text,
and a filesystem holding it, plus an empty notebook and its filesystem. -/

/-- The cells of the spec's concrete scenario. -/
def cellsW : List Cell :=
  [⟨"markdown", "# Title"⟩, ⟨"code", "x = 1"⟩, ⟨"code", "y = 2"⟩]

/-- A parser recognising exactly the raw text "nb-json" as `cellsW`. -/
def parseW : String → Option (List Cell) :=
  fun raw => if raw = "nb-json" then some cellsW else none

/-- A filesystem holding the raw notebook at "demo.ipynb". -/
def fsW : FS :=
  fun q => if q = "demo.ipynb" then some "nb-json" else none

/-- A parser recognising the raw text "md-json" as a single markdown cell. -/
def parseMd : String → Option (List Cell) :=
  fun raw => if raw = "md-json" then some [⟨"markdown", "# t"⟩] else none

/-- A filesystem holding the markdown-only notebook at "m.ipynb". -/
def fsMd : FS :=
  fun q => if q = "m.ipynb" then some "md-json" else none

/-- The empty filesystem: no path can be opened. -/
def fsEmpty : FS := fun _ => none

/-- The parser that rejects every raw text. -/
def parseNone : String → Option (List Cell) := fun _ => none

/-! Basic lemmas about `String.join` and the write loop. -/

theorem foldl_append_shift (l : List String) :
    ∀ s t : String, l.foldl (fun r q => r ++ q) (s ++ t) = s ++ l.foldl (fun r q => r ++ q) t := by
  induction l with
  | nil => intro s t; rfl
  | cons a l ih =>
      intro s t
      simpa [String.append_assoc] using ih s (t ++ a)

theorem join_cons (s : String) (l : List String) :
    String.join (s :: l) = s ++ String.join l := by
  show l.foldl (fun r q => r ++ q) ("" ++ s) = s ++ l.foldl (fun r q => r ++ q) ""
  calc l.foldl (fun r q => r ++ q) ("" ++ s)
      = l.foldl (fun r q => r ++ q) (s ++ "") := by simp
    _ = s ++ l.foldl (fun r q => r ++ q) "" := foldl_append_shift l s ""

theorem writeCells_go (cells : List Cell) :
    ∀ acc : String,
      cells.foldl (fun a c => if c.cell_type = "code" then a ++ (c.source ++ "\n\n") else a) acc
        = acc ++ spec_output cells := by
  induction cells with
  | nil => intro acc; simp [spec_output, String.join]
  | cons c cells ih =>
      intro acc
      by_cases hc : c.cell_type = "code"
      · simp only [List.foldl_cons, if_pos hc, ih]
        simp [spec_output, hc, join_cons, String.append_assoc]
      · simp only [List.foldl_cons, if_neg hc, ih]
        simp [spec_output, hc]

theorem writeCells_eq_spec (cells : List Cell) : writeCells cells = spec_output cells := by
  have h := writeCells_go cells ""
  simpa [writeCells] using h

/-! Lemmas about `rfind` and `splitext`. -/

theorem rfind_neg_one_le (l : List Char) (c : Char) : -1 ≤ rfind l c := by
  induction l with
  | nil => simp [rfind]
  | cons a as ih =>
      simp only [rfind]
      split
      · omega
      · split <;> omega

theorem rfind_lt_length (l : List Char) (c : Char) : rfind l c < (l.length : Int) := by
  induction l with
  | nil => simp [rfind]
  | cons a as ih =>
      simp only [rfind, List.length_cons]
      split
      · push_cast; omega
      · split <;> (push_cast; omega)

theorem rfind_cons (a : Char) (l : List Char) (c : Char) :
    rfind (a :: l) c = if 0 ≤ rfind l c then rfind l c + 1 else if a = c then 0 else -1 := rfl

theorem rfind_cases (l : List Char) (c : Char) : rfind l c = -1 ∨ 0 ≤ rfind l c := by
  induction l with
  | nil => left; rfl
  | cons a as ih =>
      rw [rfind_cons]
      split
      · right; omega
      · split
        · right; omega
        · left; rfl

theorem rfind_append (xs ys : List Char) (c : Char) :
    rfind (xs ++ ys) c =
      if 0 ≤ rfind ys c then (xs.length : Int) + rfind ys c else rfind xs c := by
  induction xs with
  | nil =>
      rcases rfind_cases ys c with h | h
      · simp [h, rfind]
      · simp [h]
  | cons a as ih =>
      rw [List.cons_append, rfind_cons a (as ++ ys) c, rfind_cons a as c, ih]
      by_cases hy : 0 ≤ rfind ys c
      · have h0 : (0 : Int) ≤ (as.length : Int) + rfind ys c := by omega
        rw [if_pos hy, if_pos hy, if_pos h0, List.length_cons]
        push_cast
        ring
      · rw [if_neg hy, if_neg hy]

theorem splitext_suffix (xs : List Char) :
    splitext (String.mk (xs ++ (".ipynb" : String).data)) =
      if (xs.drop (rfind xs '/' + 1).toNat).any (fun a => a ≠ '.') then
        (String.mk xs, ".ipynb")
      else (String.mk (xs ++ (".ipynb" : String).data), "") := by
  have hdotsuf : rfind (".ipynb" : String).data '.' = 0 := by decide
  have hsepsuf : rfind (".ipynb" : String).data '/' = -1 := by decide
  have hneg : -1 ≤ rfind xs '/' := rfind_neg_one_le xs '/'
  have hlt : rfind xs '/' < (xs.length : Int) := rfind_lt_length xs '/'
  have hdot : rfind (xs ++ (".ipynb" : String).data) '.' = (xs.length : Int) := by
    rw [rfind_append, hdotsuf]; simp
  have hsep : rfind (xs ++ (".ipynb" : String).data) '/' = rfind xs '/' := by
    rw [rfind_append, hsepsuf]; simp
  have hfile : (rfind xs '/' + 1).toNat ≤ xs.length := by omega
  have hdroplen : (xs.length : Int).toNat - (rfind xs '/' + 1).toNat
      ≤ (xs.drop (rfind xs '/' + 1).toNat).length := by
    simp [List.length_drop]
  simp only [splitext, hdot, hsep, hlt, if_true, if_pos hlt]
  rw [List.drop_append_of_le_length hfile,
      List.take_append_of_le_length hdroplen,
      List.take_of_length_le (by simp [List.length_drop]),
      Int.toNat_natCast, List.take_left, List.drop_left]

/-! Helper lemmas about the filesystem model and the derived output path. -/

theorem join_append (l₁ l₂ : List String) :
    String.join (l₁ ++ l₂) = String.join l₁ ++ String.join l₂ := by
  induction l₁ with
  | nil => simp [String.join]
  | cons a l ih => simp [join_cons, ih, String.append_assoc]

theorem writeCells_nil_of_no_code (cells : List Cell)
    (h : ∀ c ∈ cells, c.cell_type ≠ "code") : writeCells cells = "" := by
  rw [writeCells_eq_spec, spec_output]
  have hf : cells.filter (fun c => c.cell_type == "code") = [] := by
    apply List.filter_eq_nil_iff.mpr
    intro c hc
    simpa using h c hc
  rw [hf]
  rfl

theorem FS.write_write (fs : FS) (o c₁ c₂ : String) :
    (fs.write o c₁).write o c₂ = fs.write o c₂ := by
  funext q
  by_cases h : q = o <;> simp [FS.write, h]

theorem FS.write_read_ne (fs : FS) (o c q : String) (h : q ≠ o) :
    fs.write o c q = fs q := by
  simp [FS.write, h]

theorem endswith_mk_append (xs : List Char) :
    endswith (String.mk (xs ++ (".ipynb" : String).data)) ".ipynb" = true := by
  rw [endswith]
  exact List.isSuffixOf_iff_suffix.mpr (List.suffix_append xs _)

theorem derived_output_path_ne (p : String) (h : endswith p ".ipynb" = true) :
    derived_output_path p ≠ p := by
  intro he
  have hsuf : (".ipynb" : String).data <:+ p.data := by
    rw [endswith] at h
    exact List.isSuffixOf_iff_suffix.mp h
  obtain ⟨xs, hxs⟩ := hsuf
  have h1 : p.data.getLast? = some 'b' := by
    rw [← hxs, List.getLast?_append,
        show (".ipynb" : String).data.getLast? = some 'b' from by decide]
    rfl
  have h2 : (derived_output_path p).data.getLast? = some 'l' := by
    rw [derived_output_path, String.data_append, List.getLast?_append,
        show (".jl" : String).data.getLast? = some 'l' from by decide]
    rfl
  rw [he, h1] at h2
  exact absurd h2 (by decide)

/-! Claim theorems. -/

/-- C1: for every parsed notebook, the output file content equals the
concatenation, in original cell order, of the source payloads of exactly
those cells whose type tag equals "code", each payload immediately
followed by the two characters of a double newline; no other cell
contributes and no reordering, deduplication or merging occurs. -/
theorem C1_output_is_ordered_code_concat
    (parse : String → Option (List Cell)) (fs : FS) (p o raw : String)
    (cells : List Cell)
    (hread : fs p = some raw) (hparse : parse raw = some cells) :
    (convert_notebook_to_julia parse fs p o).1 o = some (spec_output cells) ∧
    (convert_notebook_to_julia parse fs p o).2 = Except.ok () := by
  simp [convert_notebook_to_julia, hread, hparse, FS.write, writeCells_eq_spec]

/-- Witness for C1 at the spec's concrete scenario. -/
theorem C1_output_is_ordered_code_concat_witness :
    (convert_notebook_to_julia parseW fsW "demo.ipynb" "demo.jl").1 "demo.jl"
        = some "x = 1\n\ny = 2\n\n" ∧
    (convert_notebook_to_julia parseW fsW "demo.ipynb" "demo.jl").2 = Except.ok () := by
  have h := C1_output_is_ordered_code_concat parseW fsW "demo.ipynb" "demo.jl"
    "nb-json" cellsW (by decide) (by decide)
  refine ⟨?_, h.2⟩
  rw [h.1]
  decide

/-- C3: for every input path that does not end in ".ipynb", `main` raises
the `ValueError` (the spec's `InvalidInputError`) whose message names the
required extension, before any file access: the filesystem is returned
completely unchanged, so no output file is produced. -/
theorem C3_bad_extension_rejected
    (parse : String → Option (List Cell)) (fs : FS) (p : String)
    (h : endswith p ".ipynb" = false) :
    main_run parse fs p
      = (fs, Except.error (Err.valueError "Input file must have a .ipynb extension")) := by
  simp [main_run, h]

/-- Witness for C3 at the path "script.txt". -/
theorem C3_bad_extension_rejected_witness :
    main_run parseNone fsEmpty "script.txt"
      = (fsEmpty, Except.error (Err.valueError "Input file must have a .ipynb extension")) :=
  C3_bad_extension_rejected parseNone fsEmpty "script.txt" (by decide)

/-- C4: every code cell's payload appears in the output byte-for-byte
unmodified, as a contiguous block immediately followed by the double
newline separator, whatever characters (including newlines) it contains. -/
theorem C4_payload_roundtrip (cells : List Cell) (c : Cell)
    (hmem : c ∈ cells) (hcode : c.cell_type = "code") :
    ∃ pre post : String, writeCells cells = pre ++ (c.source ++ "\n\n") ++ post := by
  have hmf : c ∈ cells.filter (fun x => x.cell_type == "code") := by
    simp [List.mem_filter, hmem, hcode]
  obtain ⟨s, t, hst⟩ := List.mem_iff_append.mp hmf
  refine ⟨String.join (s.map (fun x => x.source ++ "\n\n")),
          String.join (t.map (fun x => x.source ++ "\n\n")), ?_⟩
  rw [writeCells_eq_spec, spec_output, hst]
  rw [show s ++ c :: t = (s ++ [c]) ++ t from by simp, List.map_append, join_append,
      List.map_append, join_append]
  simp [join_cons, String.join, String.append_assoc]

/-- Witness for C4 at the code cell "x = 1" of the concrete scenario. -/
theorem C4_payload_roundtrip_witness :
    (Cell.mk "code" "x = 1") ∈ cellsW ∧
    ∃ pre post : String,
      writeCells cellsW = pre ++ ((Cell.mk "code" "x = 1").source ++ "\n\n") ++ post :=
  ⟨by decide, C4_payload_roundtrip cellsW (Cell.mk "code" "x = 1") (by decide) rfl⟩

/-- C5: when the input file cannot be opened, or its content does not
parse as a notebook, the conversion fails with an IO or parse error and
the filesystem is completely unchanged: in particular no partial output
file is written, because the output is only opened after a successful
parse. -/
theorem C5_no_partial_output_on_failure
    (parse : String → Option (List Cell)) (fs : FS) (p o : String)
    (h : ∀ raw, fs p = some raw → parse raw = none) :
    (convert_notebook_to_julia parse fs p o).1 = fs ∧
    ∃ e, (convert_notebook_to_julia parse fs p o).2 = Except.error e ∧
      (e = Err.ioError ∨ e = Err.parseError) := by
  cases hr : fs p with
  | none => simp [convert_notebook_to_julia, hr]
  | some raw =>
      have hp := h raw hr
      simp [convert_notebook_to_julia, hr, hp]

/-- Witness for C5 on the empty filesystem. -/
theorem C5_no_partial_output_on_failure_witness :
    (convert_notebook_to_julia parseNone fsEmpty "a.ipynb" "a.jl").1 = fsEmpty ∧
    ∃ e, (convert_notebook_to_julia parseNone fsEmpty "a.ipynb" "a.jl").2 = Except.error e ∧
      (e = Err.ioError ∨ e = Err.parseError) :=
  C5_no_partial_output_on_failure parseNone fsEmpty "a.ipynb" "a.jl"
    (fun raw hr => by simp [fsEmpty] at hr)

/-- C2 counterexample: the path ".ipynb" is accepted by the extension
check, yet its derived output path is ".ipynb.jl" — the extension is not
replaced (which would give ".jl") but ".jl" is appended, because
`os.path.splitext` treats the leading dot of a dot-file as part of the
stem. -/
theorem C2_counterexample_dotfile :
    endswith ".ipynb" ".ipynb" = true ∧
    derived_output_path ".ipynb" = ".ipynb.jl" ∧ (".ipynb.jl" : String) ≠ ".jl" := by
  refine ⟨by decide, by decide, by decide⟩

/-- C2 amended: for every accepted input path whose final component has at
least one non-dot character before the trailing ".ipynb" (so that
`os.path.splitext` recognises the extension), the derived output path is
the input path with ".ipynb" replaced by ".jl", the rest unchanged.  (For
the remaining accepted paths — final component a run of dots followed by
"ipynb" — ".jl" is appended instead, as C9 records.) -/
theorem C2_output_path_replaces_extension (xs : List Char)
    (hnd : (xs.drop (rfind xs '/' + 1).toNat).any (fun a => a ≠ '.') = true) :
    endswith (String.mk (xs ++ (".ipynb" : String).data)) ".ipynb" = true ∧
    derived_output_path (String.mk (xs ++ (".ipynb" : String).data))
      = String.mk xs ++ ".jl" := by
  refine ⟨endswith_mk_append xs, ?_⟩
  rw [derived_output_path, splitext_suffix, if_pos hnd]

/-- Witness for the amended C2 at the path "demo.ipynb". -/
theorem C2_output_path_replaces_extension_witness :
    endswith (String.mk ((("demo" : String).data) ++ (".ipynb" : String).data)) ".ipynb"
      = true ∧
    derived_output_path (String.mk ((("demo" : String).data) ++ (".ipynb" : String).data))
      = String.mk ("demo" : String).data ++ ".jl" :=
  C2_output_path_replaces_extension ("demo" : String).data (by decide)

/-- C7: a notebook with zero code cells converts successfully and the
output file holds exactly the empty string (zero bytes). -/
theorem C7_zero_code_cells_empty_output
    (parse : String → Option (List Cell)) (fs : FS) (p raw : String)
    (cells : List Cell)
    (hend : endswith p ".ipynb" = true)
    (hread : fs p = some raw) (hparse : parse raw = some cells)
    (hnone : ∀ c ∈ cells, c.cell_type ≠ "code") :
    (main_run parse fs p).1 (derived_output_path p) = some "" ∧
    ∃ msg, (main_run parse fs p).2 = Except.ok msg := by
  have hw := writeCells_nil_of_no_code cells hnone
  constructor
  · simp [main_run, hend, convert_notebook_to_julia, hread, hparse, FS.write, hw]
  · exact ⟨"Converted " ++ p ++ " to " ++ derived_output_path p,
      by simp [main_run, hend, convert_notebook_to_julia, hread, hparse]⟩

/-- Witness for C7 at the markdown-only notebook "m.ipynb". -/
theorem C7_zero_code_cells_empty_output_witness :
    (main_run parseMd fsMd "m.ipynb").1 (derived_output_path "m.ipynb") = some "" ∧
    ∃ msg, (main_run parseMd fsMd "m.ipynb").2 = Except.ok msg :=
  C7_zero_code_cells_empty_output parseMd fsMd "m.ipynb" "md-json"
    [⟨"markdown", "# t"⟩] (by decide) (by decide) (by decide) (by decide)

/-- C9: any path whose final component is exactly ".ipynb" (the path
".ipynb" itself, or any path ending in "/.ipynb") passes the extension
check, but the derived output path is the input path with ".jl" appended
rather than the extension being replaced. -/
theorem C9_dotfile_appends_jl (xs : List Char)
    (h : xs = [] ∨ ∃ ds, xs = ds ++ ['/']) :
    endswith (String.mk (xs ++ (".ipynb" : String).data)) ".ipynb" = true ∧
    derived_output_path (String.mk (xs ++ (".ipynb" : String).data))
      = String.mk (xs ++ (".ipynb" : String).data) ++ ".jl" := by
  refine ⟨endswith_mk_append xs, ?_⟩
  have hcond : (xs.drop (rfind xs '/' + 1).toNat).any (fun a => a ≠ '.') = false := by
    rcases h with h | ⟨ds, h⟩
    · subst h; rfl
    · subst h
      have hr : rfind (ds ++ ['/']) '/' = (ds.length : Int) := by
        rw [rfind_append]
        simp [show rfind ['/'] '/' = 0 from rfl]
      have hlen : (rfind (ds ++ ['/']) '/' + 1).toNat = (ds ++ ['/']).length := by
        rw [hr]
        simp
      rw [hlen, List.drop_length]
      rfl
  rw [derived_output_path, splitext_suffix, if_neg (by rw [hcond]; decide)]

/-- C6: the conversion is idempotent: running `main` a second time on the
filesystem produced by the first run (whatever file, including a
pre-existing destination, that filesystem held) yields exactly the same
filesystem and the same outcome as the first run — the destination is
fully replaced both times and nothing accumulates. -/
theorem C6_rerun_idempotent
    (parse : String → Option (List Cell)) (fs : FS) (p : String) :
    main_run parse (main_run parse fs p).1 p = main_run parse fs p := by
  by_cases hend : endswith p ".ipynb" = true
  · cases hr : fs p with
    | none => simp [main_run, hend, convert_notebook_to_julia, hr]
    | some raw =>
        cases hp : parse raw with
        | none => simp [main_run, hend, convert_notebook_to_julia, hr, hp]
        | some cells =>
            have hne : p ≠ derived_output_path p :=
              fun h => derived_output_path_ne p hend h.symm
            have hro :
                (fs.write (derived_output_path p) (writeCells cells)) p = some raw := by
              rw [FS.write_read_ne _ _ _ _ hne]
              exact hr
            simp [main_run, hend, convert_notebook_to_julia, hr, hp, hro, FS.write_write]
  · simp [main_run, hend]

/-- C8: on every successful run, `main` writes exactly one file — the one
at the derived output path, every other path being untouched — and
returns exit code 0 together with the single console line naming the
source and destination paths. -/
theorem C8_single_file_single_line
    (parse : String → Option (List Cell)) (fs : FS) (p msg : String)
    (hok : (main_run parse fs p).2 = Except.ok msg) :
    msg = "Converted " ++ p ++ " to " ++ derived_output_path p ∧
    (∃ content, (main_run parse fs p).1 (derived_output_path p) = some content) ∧
    ∀ q, q ≠ derived_output_path p → (main_run parse fs p).1 q = fs q := by
  by_cases hend : endswith p ".ipynb" = true
  · cases hr : fs p with
    | none => simp [main_run, hend, convert_notebook_to_julia, hr] at hok
    | some raw =>
        cases hp : parse raw with
        | none => simp [main_run, hend, convert_notebook_to_julia, hr, hp] at hok
        | some cells =>
            simp only [main_run, hend, if_true, convert_notebook_to_julia, hr, hp] at hok ⊢
            have hmsg : "Converted " ++ p ++ " to " ++ derived_output_path p = msg := by
              simpa using hok
            refine ⟨hmsg.symm, ⟨writeCells cells, by simp [FS.write]⟩, ?_⟩
            intro q hq
            exact FS.write_read_ne fs _ _ q hq
  · simp [main_run, hend] at hok

/-- Witness for C9 at the path ".ipynb". -/
theorem C9_dotfile_appends_jl_witness :
    endswith (String.mk (([] : List Char) ++ (".ipynb" : String).data)) ".ipynb" = true ∧
    derived_output_path (String.mk (([] : List Char) ++ (".ipynb" : String).data))
      = String.mk (([] : List Char) ++ (".ipynb" : String).data) ++ ".jl" :=
  C9_dotfile_appends_jl [] (Or.inl rfl)

/-- Witness for C8 at the notebook "demo.ipynb". -/
theorem C8_single_file_single_line_witness :
    ("Converted demo.ipynb to demo.jl" : String)
        = "Converted " ++ "demo.ipynb" ++ " to " ++ derived_output_path "demo.ipynb" ∧
    (∃ content,
      (main_run parseW fsW "demo.ipynb").1 (derived_output_path "demo.ipynb")
        = some content) ∧
    ∀ q, q ≠ derived_output_path "demo.ipynb" →
      (main_run parseW fsW "demo.ipynb").1 q = fsW q :=
  C8_single_file_single_line parseW fsW "demo.ipynb" "Converted demo.ipynb to demo.jl"
    rfl

/-- C10: the extension check is case-sensitive: a path whose final six
characters are a case variant of ".ipynb" other than the exact lowercase
string is rejected with the extension error and the filesystem is left
untouched. -/
theorem C10_case_sensitive_rejection
    (parse : String → Option (List Cell)) (fs : FS) (p : String) (xs ys : List Char)
    (hvariant : ys.map Char.toLower = (".ipynb" : String).data)
    (hne : ys ≠ (".ipynb" : String).data)
    (hsplit : p.data = xs ++ ys) :
    main_run parse fs p
      = (fs, Except.error (Err.valueError "Input file must have a .ipynb extension")) := by
  have hlen : ys.length = (".ipynb" : String).data.length := by
    have := congrArg List.length hvariant
    simpa using this
  have hnsuf : ¬ ((".ipynb" : String).data <:+ p.data) := by
    intro hsuf
    obtain ⟨zs, hzs⟩ := hsuf
    rw [hsplit] at hzs
    exact hne (List.append_inj' hzs hlen.symm).2.symm
  have hend : endswith p ".ipynb" = false := by
    rw [endswith]
    exact Bool.eq_false_iff.mpr
      (fun hb => hnsuf (List.isSuffixOf_iff_suffix.mp hb))
  simp [main_run, hend]

/-- Witness for C10 at the path "a.IPYNB". -/
theorem C10_case_sensitive_rejection_witness :
    main_run parseNone fsEmpty "a.IPYNB"
      = (fsEmpty, Except.error (Err.valueError "Input file must have a .ipynb extension")) :=
  C10_case_sensitive_rejection parseNone fsEmpty "a.IPYNB"
    ("a" : String).data (".IPYNB" : String).data (by decide) (by decide) (by decide)

end NbToJl
